import Mathlib

/-!
Verification of the `bt` BitTorrent client (files `bt/client.py` and
`bt/protocol.py`) against its natural-language specification.

Bytes are modelled as `List Nat` (each entry < 256 where it matters),
Python mutation as explicit state passing, and Python exceptions as
`Except String` results that carry the state as it was when the
exception propagated.
-/

deriving instance DecidableEq for Except

namespace BT

/-! ## SHA-1 (model of Python `hashlib.sha1`)

The client calls `hashlib.sha1` (standard library, outside the
repository); this is the standard SHA-1 algorithm over a byte list,
producing the 20-byte raw digest. -/

def w32 (n : Nat) : Nat := n % 4294967296

def rotl32 (s n : Nat) : Nat := w32 (n * 2 ^ s + n / 2 ^ (32 - s))

def toBytesBE : Nat → Nat → List Nat
  | 0, _ => []
  | k + 1, n => toBytesBE k (n / 256) ++ [n % 256]

def bytesToWordsBE : List Nat → List Nat
  | a :: b :: c :: d :: rest => (((a * 256 + b) * 256 + c) * 256 + d) :: bytesToWordsBE rest
  | _ => []

def sha1Pad (msg : List Nat) : List Nat :=
  msg ++ [128] ++ List.replicate ((119 - msg.length % 64) % 64) 0
      ++ toBytesBE 8 (8 * msg.length)

/-- Schedule extension, keeping the already-produced words newest-first. -/
def sha1ExtendRev : Nat → List Nat → List Nat
  | 0, rev => rev
  | k + 1, rev =>
    sha1ExtendRev k
      (rotl32 1 ((rev.getD 2 0) ^^^ (rev.getD 7 0) ^^^ (rev.getD 13 0) ^^^ (rev.getD 15 0)) :: rev)

def sha1FK (i b c d : Nat) : Nat × Nat :=
  if i < 20 then ((b &&& c) ||| ((4294967295 - b) &&& d), 1518500249)
  else if i < 40 then (b ^^^ c ^^^ d, 1859775393)
  else if i < 60 then ((b &&& c) ||| (b &&& d) ||| (c &&& d), 2400959708)
  else (b ^^^ c ^^^ d, 3395469782)

def sha1Compress : Nat → List Nat → Nat × Nat × Nat × Nat × Nat → Nat × Nat × Nat × Nat × Nat
  | _, [], st => st
  | i, w :: ws, (a, b, c, d, e) =>
    let fk := sha1FK i b c d
    sha1Compress (i + 1) ws (w32 (rotl32 5 a + fk.1 + e + fk.2 + w), a, rotl32 30 b, c, d)

def sha1ProcessChunk (chunk : List Nat) (h : Nat × Nat × Nat × Nat × Nat) :
    Nat × Nat × Nat × Nat × Nat :=
  let ws := (sha1ExtendRev 64 (bytesToWordsBE chunk).reverse).reverse
  let st := sha1Compress 0 ws h
  (w32 (h.1 + st.1), w32 (h.2.1 + st.2.1), w32 (h.2.2.1 + st.2.2.1),
   w32 (h.2.2.2.1 + st.2.2.2.1), w32 (h.2.2.2.2 + st.2.2.2.2))

def sha1ChunksN : Nat → List Nat → Nat × Nat × Nat × Nat × Nat → Nat × Nat × Nat × Nat × Nat
  | 0, _, h => h
  | n + 1, bytes, h => sha1ChunksN n (bytes.drop 64) (sha1ProcessChunk (bytes.take 64) h)

def sha1 (msg : List Nat) : List Nat :=
  let padded := sha1Pad msg
  let h := sha1ChunksN (padded.length / 64) padded
    (1732584193, 4023233417, 2562383102, 271733878, 3285377520)
  toBytesBE 4 h.1 ++ toBytesBE 4 h.2.1 ++ toBytesBE 4 h.2.2.1
    ++ toBytesBE 4 h.2.2.2.1 ++ toBytesBE 4 h.2.2.2.2

/-- ASCII code of the lowercase hex digit for `n < 16`
(model of one character of Python `hexdigest()`). -/
def hexChar (n : Nat) : Nat := if n < 10 then 48 + n else 87 + n

/-- Model of `bytearray(sha1(data).hexdigest(), "utf-8")` applied to a raw
digest: the 2·n ASCII bytes of the lowercase hex rendering. -/
def hexBytes (l : List Nat) : List Nat :=
  (l.map (fun b => [hexChar (b / 16), hexChar (b % 16)])).flatten

/-! ## Piece model (`bt/client.py`, classes `Block` and `Piece`) -/

/-- `Block.Missing` / `Block.Pending` / `Block.Retrieved`. -/
inductive BlockStatus
  | missing
  | pending
  | retrieved
deriving DecidableEq

/-- `Block(piece, offset, length)` with its mutable `status` and `data`. -/
structure Block where
  piece : Nat
  offset : Nat
  length : Nat
  status : BlockStatus
  data : Option (List Nat)
deriving DecidableEq

/-- `Piece(index, blocks, hash_value)`. `hash` is the byte string stored
from the metainfo. -/
structure Piece where
  index : Nat
  blocks : List Block
  hash : List Nat
deriving DecidableEq

/-- `Piece.reset`: every block status back to Missing (the source does not
clear `data`). -/
def pieceReset (p : Piece) : Piece :=
  ⟨p.index, p.blocks.map (fun b => ⟨b.piece, b.offset, b.length, .missing, b.data⟩), p.hash⟩

/-- Mark the first Missing block Pending and return it
(mutation inside `Piece.next_request`). -/
def markFirstMissing : List Block → Option Block × List Block
  | [] => (none, [])
  | b :: bs =>
    if b.status = BlockStatus.missing then
      ((some ⟨b.piece, b.offset, b.length, .pending, b.data⟩),
       ⟨b.piece, b.offset, b.length, .pending, b.data⟩ :: bs)
    else
      let r := markFirstMissing bs
      (r.1, b :: r.2)

/-- `Piece.next_request`: first Missing block becomes Pending and is
returned; `None` when no block is Missing. -/
def pieceNextRequest (p : Piece) : Option Block × Piece :=
  let r := markFirstMissing p.blocks
  (r.1, ⟨p.index, r.2, p.hash⟩)

/-- Set the first block with the given offset to Retrieved, storing the
data. `none` when no block has that offset. -/
def markReceived (off : Nat) (data : List Nat) : List Block → Option (List Block)
  | [] => none
  | b :: bs =>
    if b.offset = off then
      some (⟨b.piece, b.offset, b.length, .retrieved, some data⟩ :: bs)
    else
      (markReceived off data bs).map (fun bs2 => b :: bs2)

/-- `Piece.block_received(offset, data)`. When no block matches, the
source executes `logging.warning(...)` with `logging` unimported, raising
`NameError`. -/
def pieceBlockReceived (p : Piece) (off : Nat) (data : List Nat) : Except String Piece :=
  match markReceived off data p.blocks with
  | some bs => .ok ⟨p.index, bs, p.hash⟩
  | none => .error "NameError: name logging is not defined"

/-- `Piece.is_complete`: every block Retrieved. -/
def isComplete (p : Piece) : Bool :=
  p.blocks.all (fun b => b.status = BlockStatus.retrieved)

/-- Insert a block into a list sorted by offset (model of
`sorted(self.blocks, key=lambda b: b.offset)`). -/
def insertByOffset (b : Block) : List Block → List Block
  | [] => [b]
  | c :: cs => if b.offset ≤ c.offset then b :: c :: cs else c :: insertByOffset b cs

def sortByOffset (l : List Block) : List Block := l.foldr insertByOffset []

/-- `Piece.data`: block data concatenated in offset order. -/
def pieceData (p : Piece) : List Nat :=
  ((sortByOffset p.blocks).map (fun b => b.data.getD [])).flatten

/-- `Piece.is_hash_matching`: compares the stored hash with
`bytearray(sha1(self.data).hexdigest(), "utf-8")`, i.e. with the 40 ASCII
bytes of the hex rendering of the digest, not with the raw 20-byte digest. -/
def isHashMatching (p : Piece) : Bool :=
  p.hash = hexBytes (sha1 (pieceData p))

/-! ## Download coordinator (`bt/client.py`, class `DownloadManager`)

The file descriptor is modelled as a log of positioned writes
`(offset, bytes)`; `peers` is the dict `remote_peer_id -> bitfield`,
modelled as an association list. -/

/-- `PendingRequest(block, added)` (a `namedtuple`, hence immutable). -/
structure PendingReq where
  block : Block
  added : Nat
deriving DecidableEq

structure DM where
  totalPieces : Nat
  pieceLength : Nat
  peers : List (Nat × List Bool)
  pendingBlocks : List PendingReq
  ongoingPieces : List Piece
  havePieces : List Piece
  missingPieces : List Piece
  fileWrites : List (Nat × List Nat)
deriving DecidableEq

/-- Dict lookup `self.peers[peer_id]` / membership test. -/
def lookupPeer : List (Nat × List Bool) → Nat → Option (List Bool)
  | [], _ => none
  | (k, v) :: rest, pid => if k = pid then some v else lookupPeer rest pid

/-- Dict assignment `self.peers[peer_id] = bitfield`. -/
def setPeer : List (Nat × List Bool) → Nat → List Bool → List (Nat × List Bool)
  | [], pid, bf => [(pid, bf)]
  | (k, v) :: rest, pid, bf =>
    if k = pid then (pid, bf) :: rest else (k, v) :: setPeer rest pid bf

/-- Reading bit `i` of a stored bitfield. Modelled from the spec: bit `i`
set iff the peer has piece `i` (the decoded bitfield type lives in the
absent `bt/message.py`); out-of-range reads are not exercised here. -/
def bitAt (bf : List Bool) (i : Nat) : Bool := bf.getD i false

/-- `DownloadManager.complete`. -/
def dmComplete (dm : DM) : Bool := dm.havePieces.length = dm.totalPieces

/-- `DownloadManager.add_peer`. -/
def addPeer (dm : DM) (peerId : Nat) (bf : List Bool) : DM :=
  { dm with peers := setPeer dm.peers peerId bf }

/-- `remove_from_pending_pieces`: delete the first pending request with
this piece index and offset. -/
def removeFirstMatching (pieceIndex off : Nat) : List PendingReq → List PendingReq
  | [] => []
  | r :: rs =>
    if r.block.piece = pieceIndex ∧ r.block.offset = off then rs
    else r :: removeFirstMatching pieceIndex off rs

/-- `update_ongoing_pieces` acting on the `ongoing_pieces` list: locate
the first piece with the given index, feed it the block, and on a
complete, hash-matching piece remove it (returning it together with the
positioned write it triggers); on a complete non-matching piece reset it
in place. -/
def updateOngoingList (pieceLen off : Nat) (data : List Nat) (pieceIndex : Nat) :
    List Piece → Except String (Option Piece × List Piece × List (Nat × List Nat))
  | [] => .ok (none, [], [])
  | p :: ps =>
    if p.index = pieceIndex then
      match pieceBlockReceived p off data with
      | .error e => .error e
      | .ok p2 =>
        if isComplete p2 then
          if isHashMatching p2 then
            .ok (some p2, ps, [(p2.index * pieceLen, pieceData p2)])
          else
            .ok (none, pieceReset p2 :: ps, [])
        else
          .ok (none, p2 :: ps, [])
    else
      match updateOngoingList pieceLen off data pieceIndex ps with
      | .error e => .error e
      | .ok (r, ps2, ws) => .ok (r, p :: ps2, ws)

/-- `DownloadManager.update_ongoing_pieces`. -/
def updateOngoing (dm : DM) (pieceIndex off : Nat) (data : List Nat) :
    Except String (Option Piece) × DM :=
  match updateOngoingList dm.pieceLength off data pieceIndex dm.ongoingPieces with
  | .error e => (.error e, dm)
  | .ok (r, og, ws) =>
    (.ok r, { dm with ongoingPieces := og, fileWrites := dm.fileWrites ++ ws })

/-- `DownloadManager.on_block_complete`. When `update_ongoing_pieces`
returns a validated piece, the source calls `self.update_have_pieces(...)`
— a method that does not exist (the class only defines
`update_have_piece`, which takes one argument and only logs; nothing ever
appends to `have_pieces`) — so an `AttributeError` is raised with the
piece already removed from `ongoing_pieces`. -/
def onBlockComplete (dm : DM) (_peerId pieceIndex off : Nat) (data : List Nat) :
    Except String Unit × DM :=
  let dm1 := { dm with pendingBlocks := removeFirstMatching pieceIndex off dm.pendingBlocks }
  match updateOngoing dm1 pieceIndex off data with
  | (.error e, dm2) => (.error e, dm2)
  | (.ok (some _), dm2) =>
    (.error "AttributeError: DownloadManager object has no attribute update_have_pieces", dm2)
  | (.ok none, dm2) => (.ok (), dm2)

/-- `REQUEST_SIZE`. Modelled from the spec: the constant lives in the
absent `bt/message.py`; the spec fixes `BLOCK_SIZE = 2^14 = 16384`. -/
def REQUEST_SIZE : Nat := 16384

def ceilDiv (a b : Nat) : Nat := (a + b - 1) / b

/-- `range(count)` of full-size blocks for piece `index`. -/
def makeBlocksFull (index count : Nat) : List Block :=
  (List.range count).map (fun o => ⟨index, o * REQUEST_SIZE, REQUEST_SIZE, .missing, none⟩)

/-- One iteration of the `make_pieces` loop. For the last piece, when
`last_length % REQUEST_SIZE > 0` the source executes
`block[-1] = last_block` where the name `block` is undefined, raising
`NameError`. -/
def makePieceAt (pieceLength len total i : Nat) (d : List Nat) : Except String Piece :=
  if i < total - 1 then
    .ok ⟨i, makeBlocksFull i (ceilDiv pieceLength REQUEST_SIZE), d⟩
  else
    let lastLength := len % pieceLength
    if lastLength % REQUEST_SIZE > 0 then
      .error "NameError: name block is not defined"
    else
      .ok ⟨i, makeBlocksFull i (ceilDiv lastLength REQUEST_SIZE), d⟩

def makePiecesGo (pieceLength len total : Nat) : Nat → List (List Nat) → Except String (List Piece)
  | _, [] => .ok []
  | i, d :: ds =>
    match makePieceAt pieceLength len total i d with
    | .error e => .error e
    | .ok p =>
      match makePiecesGo pieceLength len total (i + 1) ds with
      | .error e => .error e
      | .ok ps => .ok (p :: ps)

/-- `DownloadManager.make_pieces`, from the metainfo
(`digests = info.pieces`, `pieceLength = info.piece_length`,
`len = info.length`). -/
def makePieces (digests : List (List Nat)) (pieceLength len : Nat) :
    Except String (List Piece) :=
  makePiecesGo pieceLength len digests.length 0 digests

/-- `_expired_request` scanning `pending_blocks`: for the first request
whose piece is set in the bitfield, the source evaluates
`self.max_pending_time`, an attribute never assigned anywhere in the
class, raising `AttributeError` (were it present, the unimported
`logging` and the attempt to assign to a field of the immutable
`PendingRequest` namedtuple would each raise as well). -/
def expiredAux (bf : List Bool) : List PendingReq → Except String (Option Block)
  | [] => .ok none
  | r :: rs =>
    if bitAt bf r.block.piece then
      .error "AttributeError: DownloadManager object has no attribute max_pending_time"
    else
      expiredAux bf rs

/-- `_next_ongoing` acting on `ongoing_pieces`: for the first covered
piece yielding a block, mark it and build the `PendingRequest` appended
to `pending_blocks`. Returns (block, updated list, appended requests). -/
def nextOngoingAux (bf : List Bool) (now : Nat) :
    List Piece → Option Block × List Piece × List PendingReq
  | [] => (none, [], [])
  | p :: ps =>
    if bitAt bf p.index then
      match (pieceNextRequest p).1 with
      | some b => (some b, (pieceNextRequest p).2 :: ps, [⟨b, now⟩])
      | none =>
        let r := nextOngoingAux bf now ps
        (r.1, p :: r.2.1, r.2.2)
    else
      let r := nextOngoingAux bf now ps
      (r.1, p :: r.2.1, r.2.2)

/-- `_next_missing` acting on `missing_pieces`: pop the first covered
piece, hand it to `ongoing_pieces`, and return `piece.next_request()`.
No `PendingRequest` is recorded. Returns
(block, remaining missing, pieces appended to ongoing). -/
def nextMissingAux (bf : List Bool) : List Piece → Option Block × List Piece × List Piece
  | [] => (none, [], [])
  | p :: ps =>
    if bitAt bf p.index then
      ((pieceNextRequest p).1, ps, [(pieceNextRequest p).2])
    else
      let r := nextMissingAux bf ps
      (r.1, p :: r.2.1, r.2.2)

/-- `DownloadManager.next_request(peer_id)` at time `now` (milliseconds):
unknown peers get `None`; otherwise expired requests, then ongoing
pieces, then missing pieces. -/
def nextRequest (dm : DM) (peerId now : Nat) : Except String (Option Block) × DM :=
  match lookupPeer dm.peers peerId with
  | none => (.ok none, dm)
  | some bf =>
    match expiredAux bf dm.pendingBlocks with
    | .error e => (.error e, dm)
    | .ok (some b) => (.ok (some b), dm)
    | .ok none =>
      match nextOngoingAux bf now dm.ongoingPieces with
      | (some b, og, pend) =>
        (.ok (some b), { dm with ongoingPieces := og,
                                 pendingBlocks := dm.pendingBlocks ++ pend })
      | (none, og, _) =>
        let r := nextMissingAux bf dm.missingPieces
        (.ok r.1, { dm with ongoingPieces := og ++ r.2.2, missingPieces := r.2.1 })

/-! ## Peer session (`bt/protocol.py`, class `PeerConnection`)

`current_state` is a Python list (duplicates possible; `append` at the
end, `remove` deletes the first occurrence and raises `ValueError` when
absent). One iteration of the `async for` loop of `handle_message` is
modelled as a step function; messages written to the socket are
collected in an output list, and a Python exception aborts the step with
the outputs already written. -/

/-- `PeerState` values. -/
inductive PV
  | choked
  | interested
  | stopped
  | pendingRequest
deriving DecidableEq

/-- Incoming decoded messages (as produced by the framer). -/
inductive InMsg
  | keepAlive
  | choke
  | unchoke
  | interestedM
  | notInterestedM
  | haveMsg (index : Nat)
  | bitFieldMsg (bf : List Bool)
  | pieceMsg (index off : Nat) (blockData : List Nat)
  | requestMsg (index off len : Nat)
  | cancelMsg (index off len : Nat)
deriving DecidableEq

/-- Messages the session writes to the wire during one step. -/
inductive OutMsg
  | interestedOut
  | requestOut (pieceIdx off len : Nat)
deriving DecidableEq

/-- `list.remove(x)`: `none` models the `ValueError`. -/
def removeFirstPV (x : PV) : List PV → Option (List PV)
  | [] => none
  | y :: ys => if y = x then some ys else (removeFirstPV x ys).map (fun l => y :: l)

/-- `can_request()`. -/
def canRequest (st : List PV) : Bool :=
  !(st.contains PV.choked) && st.contains PV.interested

structure StepResult where
  err : Option String
  state : List PV
  dm : DM
  out : List OutMsg
deriving DecidableEq

/-- The tail of each `handle_message` iteration: if `can_request()` and
`PendingRequest` is not in the state list, append `PendingRequest` and
run `send_request` (which asks the coordinator and writes a Request
message when a block is handed out). -/
def afterHandle (dm : DM) (now remoteId : Nat) (st : List PV) : StepResult :=
  if canRequest st then
    if st.contains PV.pendingRequest then ⟨none, st, dm, []⟩
    else
      match nextRequest dm remoteId now with
      | (.error e, dm2) => ⟨some e, st ++ [PV.pendingRequest], dm2, []⟩
      | (.ok none, dm2) => ⟨none, st ++ [PV.pendingRequest], dm2, []⟩
      | (.ok (some b), dm2) =>
        ⟨none, st ++ [PV.pendingRequest], dm2, [OutMsg.requestOut b.piece b.offset b.length]⟩
  else ⟨none, st, dm, []⟩

/-- One iteration of the `handle_message` loop on one decoded message.
On `Have` the source calls `self.download_manager.update_peer(...)`, a
method `DownloadManager` does not define, raising `AttributeError`. On
`Piece` the source removes `PendingRequest` before posting the block,
raising `ValueError` when it is absent. -/
def sessionStep (dm : DM) (now remoteId : Nat) (st : List PV) (msg : InMsg) : StepResult :=
  if st.contains PV.stopped then ⟨none, st, dm, []⟩
  else
    match msg with
    | .keepAlive => afterHandle dm now remoteId st
    | .interestedM => afterHandle dm now remoteId (st ++ [PV.interested])
    | .notInterestedM => afterHandle dm now remoteId ((removeFirstPV PV.interested st).getD st)
    | .choke => afterHandle dm now remoteId (st ++ [PV.choked])
    | .unchoke => afterHandle dm now remoteId ((removeFirstPV PV.choked st).getD st)
    | .haveMsg _ =>
      ⟨some "AttributeError: DownloadManager object has no attribute update_peer", st, dm, []⟩
    | .bitFieldMsg bf =>
      let pre : List OutMsg :=
        if st.contains PV.interested then [] else [OutMsg.interestedOut]
      let r := afterHandle (addPeer dm remoteId bf) now remoteId st
      ⟨r.err, r.state, r.dm, pre ++ r.out⟩
    | .pieceMsg idx off dat =>
      match removeFirstPV PV.pendingRequest st with
      | none => ⟨some "ValueError: list remove x not in list", st, dm, []⟩
      | some st1 =>
        match onBlockComplete dm remoteId idx off dat with
        | (.error e, dm2) => ⟨some e, st1, dm2, []⟩
        | (.ok _, dm2) => afterHandle dm2 now remoteId st1
    | .requestMsg _ _ _ => afterHandle dm now remoteId st
    | .cancelMsg _ _ _ => afterHandle dm now remoteId st

/-! ## Stream framer (`bt/protocol.py`, class `PeerStreamIterator`)

Wire messages as surfaced by `parse`. The decoders live in the absent
`bt/message.py`; they are modelled from the spec. Message ids
(spec §4.1): Choke 0, Unchoke 1, Interested 2, NotInterested 3, Have 4,
BitField 5, Request 6, Piece 7, Cancel 8. For the message kinds whose
decoded content the claims do not inspect, the raw frame handed to the
decoder is carried unchanged. -/

inductive WireMsg
  | keepAliveW
  | chokeW
  | unchokeW
  | interestedW
  | notInterestedW
  | haveW (index : Nat)
  | bitFieldW (frame : List Nat)
  | requestW (frame : List Nat)
  | pieceW (frame : List Nat)
  | cancelW (frame : List Nat)
deriving DecidableEq

def be32 (a b c d : Nat) : Nat := ((a * 256 + b) * 256 + c) * 256 + d

/-- Modelled from the spec: `HaveMessage.decode` reads the 4-byte
big-endian piece index that follows the 5 header bytes of the frame. -/
def haveDecode (frame : List Nat) : Nat :=
  be32 (frame.getD 5 0) (frame.getD 6 0) (frame.getD 7 0) (frame.getD 8 0)

/-- `PeerStreamIterator.parse` as a function of the buffer, returning the
surfaced message (if any) and the buffer that remains. Faithful to the
source: a buffer is inspected only when strictly longer than 4 bytes, a
keep-alive is surfaced without consuming its frame, a frame is considered
whole as soon as `len(buffer) >= message_length` (the 4 header bytes are
not counted), and unsupported ids consume nothing. -/
def parseBuf : List Nat → Option WireMsg × List Nat
  | b0 :: b1 :: b2 :: b3 :: mid :: rest =>
    let buf := b0 :: b1 :: b2 :: b3 :: mid :: rest
    let msgLen := be32 b0 b1 b2 b3
    if msgLen = 0 then (some .keepAliveW, buf)
    else if buf.length ≥ msgLen then
      let frame := buf.take (4 + msgLen)
      let buf2 := buf.drop (4 + msgLen)
      if mid = 5 then (some (.bitFieldW frame), buf2)
      else if mid = 2 then (some .interestedW, buf2)
      else if mid = 3 then (some .notInterestedW, buf2)
      else if mid = 0 then (some .chokeW, buf2)
      else if mid = 1 then (some .unchokeW, buf2)
      else if mid = 4 then (some (.haveW (haveDecode frame)), buf2)
      else if mid = 7 then (some (.pieceW frame), buf2)
      else if mid = 6 then (some (.requestW frame), buf2)
      else if mid = 8 then (some (.cancelW frame), buf2)
      else (none, buf)
    else (none, buf)
  | buf => (none, buf)

/-- Framer state: the internal buffer plus the pending reads; each entry
of `chunks` is the byte chunk the next `reader.read` returns, and an
exhausted list (or an empty chunk) models EOF. -/
structure IterSt where
  buffer : List Nat
  chunks : List (List Nat)
deriving DecidableEq

inductive DemandRes
  | yielded (m : WireMsg) (s : IterSt)
  | stopIter
  | fuelOut
deriving DecidableEq

/-- `PeerStreamIterator.__anext__` with fuel for the `while True` loop.
Faithful to the source: while the buffer is non-empty only `parse` is
retried (no further read happens), and after a read that does not
complete a message `StopAsyncIteration` is raised even though the
buffer holds the partial data. -/
def demandAux : Nat → IterSt → DemandRes
  | 0, _ => .fuelOut
  | n + 1, s =>
    if s.buffer.isEmpty then
      match s.chunks with
      | [] => .stopIter
      | c :: cs =>
        if c.isEmpty then .stopIter
        else
          match parseBuf c with
          | (some m, b2) => .yielded m ⟨b2, cs⟩
          | (none, _) => .stopIter
    else
      match parseBuf s.buffer with
      | (some m, b2) => .yielded m ⟨b2, s.chunks⟩
      | (none, b2) => demandAux n ⟨b2, s.chunks⟩

/-- Drive the iterator to its end, collecting every yielded message
(the consumption of the framer by the `async for` of `handle_message`). -/
def runFramer : Nat → IterSt → List WireMsg
  | 0, _ => []
  | n + 1, s =>
    match demandAux (n + 1) s with
    | .yielded m s2 => m :: runFramer n s2
    | _ => []

/-! ## The coordinator partition invariant (spec §8, property 1) -/

def allDistinct : List Nat → Bool
  | [] => true
  | x :: xs => !(xs.contains x) && allDistinct xs

def pieceIndices (l : List Piece) : List Nat := l.map (fun p => p.index)

/-- Decidable form of the partition invariant: the pieces of
`missing ++ ongoing ++ have` carry pairwise distinct indices (each piece
in exactly one collection), the three sizes sum to `total_pieces`, and
every pending block belongs to an ongoing piece. -/
def dmInv (dm : DM) : Bool :=
  allDistinct (pieceIndices (dm.missingPieces ++ dm.ongoingPieces ++ dm.havePieces))
  && (dm.missingPieces.length + dm.ongoingPieces.length + dm.havePieces.length = dm.totalPieces)
  && dm.pendingBlocks.all (fun r => (pieceIndices dm.ongoingPieces).contains r.block.piece)

/-! ## Concrete states used by the theorems -/

/-- A one-block ongoing piece awaiting its last block. Its stored hash is
(deliberately) the 40 hex bytes of the digest of `[9, 9, 9, 9]`, the one
form `is_hash_matching` accepts, so that the validated branch of
`on_block_complete` is exercised. -/
def pieceC1 : Piece := ⟨0, [⟨0, 0, 4, .pending, none⟩], hexBytes (sha1 [9, 9, 9, 9])⟩

def dmC1 : DM := ⟨1, 16384, [(1, [true])], [], [pieceC1], [], [], []⟩

/-- A complete one-block piece whose stored hash is the raw 20-byte SHA-1
digest of its (empty) data, exactly as the metainfo supplies it. -/
def pieceC2 : Piece := ⟨0, [⟨0, 0, 0, .retrieved, some []⟩], sha1 []⟩

/-- One never-requested one-block piece. -/
def pieceM0 : Piece := ⟨0, [⟨0, 0, 16384, .missing, none⟩], List.replicate 20 0⟩

/-- A fresh coordinator: one missing piece, one registered peer (id 1)
holding it. -/
def dmFresh : DM := ⟨1, 16384, [(1, [true])], [], [], [], [pieceM0], []⟩

/-- A coordinator with one outstanding block request, recorded at time 0,
for an ongoing piece held by registered peer 1. -/
def dmC5 : DM :=
  ⟨1, 16384, [(1, [true])], [⟨⟨0, 0, 16384, .pending, none⟩, 0⟩],
   [⟨0, [⟨0, 0, 16384, .pending, none⟩], List.replicate 20 0⟩], [], [], []⟩

/-! ## Theorems -/

/-- Helper: when `afterHandle` writes a Request, the guard held —
`can_request()` was true, `PendingRequest` was absent, and the state
gained exactly one `PendingRequest` at the end. -/
theorem afterHandle_request (dm : DM) (now rid : Nat) (st : List PV) (p o l : Nat)
    (h : OutMsg.requestOut p o l ∈ (afterHandle dm now rid st).out) :
    canRequest st = true ∧ PV.pendingRequest ∉ st ∧
    (afterHandle dm now rid st).state = st ++ [PV.pendingRequest] := by
  by_cases hc : canRequest st = true
  · by_cases hp : PV.pendingRequest ∈ st
    · exfalso
      simp [afterHandle, hc, hp] at h
    · rcases hnr : nextRequest dm rid now with ⟨res, dm2⟩
      cases res with
      | error e =>
        exfalso
        simp [afterHandle, hc, hp, hnr] at h
      | ok ob =>
        cases ob with
        | none =>
          exfalso
          simp [afterHandle, hc, hp, hnr] at h
        | some b =>
          exact ⟨hc, hp, by simp [afterHandle, hc, hp, hnr]⟩
  · exfalso
    simp [afterHandle, hc] at h

/-- Helper: any Request written during a session step comes from the
trailing `afterHandle` on some intermediate coordinator and state list,
and the step ends in that `afterHandle` state. -/
theorem sessionStep_request_shape (dm : DM) (now rid : Nat) (st : List PV) (msg : InMsg)
    (p o l : Nat)
    (h : OutMsg.requestOut p o l ∈ (sessionStep dm now rid st msg).out) :
    ∃ dm1 st1, OutMsg.requestOut p o l ∈ (afterHandle dm1 now rid st1).out ∧
      (sessionStep dm now rid st msg).state = (afterHandle dm1 now rid st1).state := by
  by_cases hs : PV.stopped ∈ st
  · exfalso
    simp [sessionStep, hs] at h
  · cases msg with
    | keepAlive => exact ⟨dm, st, by simpa [sessionStep, hs] using h, by simp [sessionStep, hs]⟩
    | interestedM =>
      exact ⟨dm, st ++ [PV.interested], by simpa [sessionStep, hs] using h,
        by simp [sessionStep, hs]⟩
    | notInterestedM =>
      exact ⟨dm, (removeFirstPV PV.interested st).getD st, by simpa [sessionStep, hs] using h,
        by simp [sessionStep, hs]⟩
    | choke =>
      exact ⟨dm, st ++ [PV.choked], by simpa [sessionStep, hs] using h,
        by simp [sessionStep, hs]⟩
    | unchoke =>
      exact ⟨dm, (removeFirstPV PV.choked st).getD st, by simpa [sessionStep, hs] using h,
        by simp [sessionStep, hs]⟩
    | haveMsg i =>
      exfalso
      simp [sessionStep, hs] at h
    | bitFieldMsg bf =>
      refine ⟨addPeer dm rid bf, st, ?_, by simp [sessionStep, hs]⟩
      by_cases hi : PV.interested ∈ st
      · simpa [sessionStep, hs, hi] using h
      · simpa [sessionStep, hs, hi, List.mem_cons] using h
    | pieceMsg idx off dat =>
      rcases hr : removeFirstPV PV.pendingRequest st with _ | st1
      · exfalso
        simp [sessionStep, hs, hr] at h
      · rcases hb : onBlockComplete dm rid idx off dat with ⟨res, dm2⟩
        cases res with
        | error e =>
          exfalso
          simp [sessionStep, hs, hr, hb] at h
        | ok u =>
          exact ⟨dm2, st1, by simpa [sessionStep, hs, hr, hb] using h,
            by simp [sessionStep, hs, hr, hb]⟩
    | requestMsg a b c =>
      exact ⟨dm, st, by simpa [sessionStep, hs] using h, by simp [sessionStep, hs]⟩
    | cancelMsg a b c =>
      exact ⟨dm, st, by simpa [sessionStep, hs] using h, by simp [sessionStep, hs]⟩

/-- Helper: when `_next_ongoing` hands out no block, the ongoing list is
untouched. -/
theorem nextOngoingAux_none (bf : List Bool) (now : Nat) :
    ∀ l : List Piece, (nextOngoingAux bf now l).1 = none → (nextOngoingAux bf now l).2.1 = l
  | [], _ => rfl
  | p :: ps, h => by
    by_cases hb : bitAt bf p.index = true
    · rcases hq : (pieceNextRequest p).1 with _ | b
      · have h2 : (nextOngoingAux bf now ps).1 = none := by
          have := h
          simp [nextOngoingAux, hb, hq] at this
          exact this
        simp [nextOngoingAux, hb, hq]
        exact nextOngoingAux_none bf now ps h2
      · exfalso
        simp [nextOngoingAux, hb, hq] at h
    · have h2 : (nextOngoingAux bf now ps).1 = none := by
        have := h
        simp [nextOngoingAux, hb] at this
        exact this
      simp [nextOngoingAux, hb]
      exact nextOngoingAux_none bf now ps h2

/-- Helper: `_next_missing` skips uncovered pieces and acts on the first
covered one. -/
theorem nextMissingAux_skip (bf : List Bool) (p : Piece) (post : List Piece)
    (hp : bitAt bf p.index = true) :
    ∀ pre : List Piece, (∀ q ∈ pre, bitAt bf q.index = false) →
      nextMissingAux bf (pre ++ p :: post) =
        ((pieceNextRequest p).1, pre ++ post, [(pieceNextRequest p).2])
  | [], _ => by simp [nextMissingAux, hp]
  | q :: qs, hall => by
    have hq : bitAt bf q.index = false := hall q (by simp)
    have ih := nextMissingAux_skip bf p post hp qs (fun r hr => hall r (by simp [hr]))
    simp [nextMissingAux, hq, ih]

/-- Helper: a demand issued while the buffer holds exactly the 4 bytes of
a keep-alive frame never returns, whatever fuel it is given: `parse`
requires strictly more than 4 buffered bytes, so the `while True` loop of
`__anext__` retries `parse` on the unchanged buffer forever. -/
theorem keepAliveSpin (cs : List (List Nat)) :
    ∀ n, demandAux n ⟨[0, 0, 0, 0], cs⟩ = DemandRes.fuelOut
  | 0 => rfl
  | n + 1 => by
    have ih := keepAliveSpin cs n
    simp [demandAux, parseBuf, ih]

set_option maxRecDepth 40000 in
/-- C1: refuted on the code. In the state `dmC1` (one ongoing one-block
piece whose stored hash is the only form `is_hash_matching` accepts), the
block completing the piece makes `on_block_complete` write the piece
bytes at offset `piece_index × piece_length` and remove the piece from
`ongoing_pieces`, but the piece is never appended to `have_pieces`: the
source then calls the nonexistent method `update_have_pieces`, raising
`AttributeError` (and the method that does exist, `update_have_piece`,
only logs). Consequently `complete` stays false with every piece
downloaded. -/
theorem c1_validated_piece_never_reaches_have :
    (onBlockComplete dmC1 1 0 0 [9, 9, 9, 9]).1 =
      .error "AttributeError: DownloadManager object has no attribute update_have_pieces" ∧
    (onBlockComplete dmC1 1 0 0 [9, 9, 9, 9]).2.fileWrites = [(0, [9, 9, 9, 9])] ∧
    (onBlockComplete dmC1 1 0 0 [9, 9, 9, 9]).2.ongoingPieces = [] ∧
    (onBlockComplete dmC1 1 0 0 [9, 9, 9, 9]).2.havePieces = [] ∧
    dmComplete (onBlockComplete dmC1 1 0 0 [9, 9, 9, 9]).2 = false := by decide

set_option maxRecDepth 40000 in
/-- C2: refuted on the code. `pieceC2` is a complete piece whose stored
hash is exactly the 20-byte SHA-1 digest of its concatenated block data,
yet `is_hash_matching` returns false: it compares the stored digest with
the 40 ASCII bytes of `hexdigest()`, never with the raw digest, so the
claimed equivalence fails in the only direction validation needs. -/
theorem c2_hash_check_never_accepts_raw_digest :
    isComplete pieceC2 = true ∧ sha1 (pieceData pieceC2) = pieceC2.hash ∧
    isHashMatching pieceC2 = false := by decide

/-- C3: refuted on the code. For the metainfo with one digest,
`piece_length = 16384` and `length = 100` (spec scenario S1), the claimed
last-piece layout is one block of length 100; the source instead reaches
`block[-1] = last_block` where the name `block` is undefined and raises
`NameError`, so `make_pieces` returns nothing at all. -/
theorem c3_make_pieces_short_tail_raises_nameerror :
    makePieces [List.replicate 20 0] 16384 100 =
      .error "NameError: name block is not defined" := by decide

set_option maxRecDepth 40000 in
/-- C4: refuted on the code. The state `dmC1` satisfies the partition
invariant, but after `on_block_complete` delivers the block that
completes and validates its one ongoing piece, the piece has been removed
from `ongoing_pieces` while `have_pieces` was never extended (the
`AttributeError` of the missing `update_have_pieces` aborts the
operation), so `|missing| + |ongoing| + |have|` drops below
`total_pieces`. -/
theorem c4_partition_invariant_broken_by_on_block_complete :
    dmInv dmC1 = true ∧ dmInv (onBlockComplete dmC1 1 0 0 [9, 9, 9, 9]).2 = false := by decide

/-- C5: refuted on the code. In `dmC5` the pending request was recorded
at time 0 and `next_request` is called by a covering registered peer at
time 300001 > MAX_PENDING_MS; instead of returning the expired block with
a refreshed timestamp, `_expired_request` raises `AttributeError`: the
attribute `max_pending_time` it reads is never assigned anywhere in
`DownloadManager` (and the timestamp reset itself would be impossible,
`PendingRequest` being an immutable namedtuple, with the unimported
`logging` raising first). -/
theorem c5_expired_request_raises_attributeerror :
    nextRequest dmC5 1 300001 =
      (.error "AttributeError: DownloadManager object has no attribute max_pending_time",
       dmC5) := by decide

/-- C6: refuted on the code. The session does route an incoming `Have(i)`
to `download_manager.update_peer(remote_id, i)`, but `DownloadManager`
defines no method `update_peer`, so the call raises `AttributeError` and
no bitfield bit is ever set: the step errors and leaves the coordinator
unchanged with nothing written to the wire. -/
theorem c6_have_message_raises_attributeerror :
    (sessionStep dmFresh 0 1 [PV.choked, PV.interested] (InMsg.haveMsg 3)).err =
      some "AttributeError: DownloadManager object has no attribute update_peer" ∧
    (sessionStep dmFresh 0 1 [PV.choked, PV.interested] (InMsg.haveMsg 3)).dm = dmFresh ∧
    (sessionStep dmFresh 0 1 [PV.choked, PV.interested] (InMsg.haveMsg 3)).out = [] := by decide

/-- C7: refuted on the code. The 9 bytes `[0,0,0,5,4,0,0,0,7]` form one
well-formed Have(7) frame — `parse` itself yields exactly that message
from the full buffer — yet when the stream is delivered in the two chunks
`[0,0,0]` and `[5,4,0,0,0,7]`, the framer terminates after yielding no
message at all: after a read that does not complete a frame, `__anext__`
falls through to `raise StopAsyncIteration`. Moreover a demand that finds
only a buffered 4-byte keep-alive frame never terminates, since `parse`
demands strictly more than 4 bytes and the loop re-runs it on the
unchanged buffer. -/
theorem c7_framer_drops_valid_frames_and_spins :
    parseBuf [0, 0, 0, 5, 4, 0, 0, 0, 7] = (some (WireMsg.haveW 7), []) ∧
    runFramer 100 ⟨[], [[0, 0, 0], [5, 4, 0, 0, 0, 7]]⟩ = [] ∧
    (∀ n, demandAux n ⟨[0, 0, 0, 0], []⟩ = DemandRes.fuelOut) :=
  ⟨by decide, by decide, fun n => keepAliveSpin [] n⟩

/-- C8: confirmed. Whenever a session step writes a Request message, the
resulting state list does not contain Choked and does contain Interested,
and the state is exactly a prefix satisfying `can_request()` — Choked
absent, Interested present — without `PendingRequest`, to which the step
appended `PendingRequest` before sending. In particular no Request is
ever sent while `Choked` is in the state set. -/
theorem c8_no_request_while_choked (dm : DM) (now remoteId : Nat) (st : List PV)
    (msg : InMsg) (p o l : Nat)
    (h : OutMsg.requestOut p o l ∈ (sessionStep dm now remoteId st msg).out) :
    PV.choked ∉ (sessionStep dm now remoteId st msg).state ∧
    PV.interested ∈ (sessionStep dm now remoteId st msg).state ∧
    ∃ pre, (sessionStep dm now remoteId st msg).state = pre ++ [PV.pendingRequest] ∧
      canRequest pre = true ∧ PV.pendingRequest ∉ pre := by
  obtain ⟨dm1, st1, hmem, hstate⟩ := sessionStep_request_shape dm now remoteId st msg p o l h
  obtain ⟨hc, hp, hst⟩ := afterHandle_request dm1 now remoteId st1 p o l hmem
  have hcc : PV.choked ∉ st1 ∧ PV.interested ∈ st1 := by
    unfold canRequest at hc
    simp at hc
    exact hc
  refine ⟨?_, ?_, st1, by rw [hstate, hst], hc, hp⟩
  · rw [hstate, hst]
    simp [List.mem_append]
    exact hcc.1
  · rw [hstate, hst]
    simp [List.mem_append]
    exact hcc.2

/-- Witness for C8: a concrete unchoked, interested session handling a
keep-alive sends a Request and ends with Choked absent. -/
theorem c8_no_request_while_choked_witness :
    OutMsg.requestOut 0 0 16384 ∈ (sessionStep dmFresh 0 1 [PV.interested] InMsg.keepAlive).out ∧
    PV.choked ∉ (sessionStep dmFresh 0 1 [PV.interested] InMsg.keepAlive).state :=
  ⟨by decide, (c8_no_request_while_choked dmFresh 0 1 [PV.interested] InMsg.keepAlive
      0 0 16384 (by decide)).1⟩

/-- C9 counterexample: in the fresh state `dmFresh`, `next_request`
reaches policy step 3 and returns the first block of the first covered
missing piece, moving the piece to `ongoing_pieces` — but
`pending_blocks` stays empty, refuting the claim that a new
`PendingRequest` is appended. -/
theorem c9_step3_records_no_pending_request :
    (nextRequest dmFresh 1 0).1 = .ok (some ⟨0, 0, 16384, .pending, none⟩) ∧
    (nextRequest dmFresh 1 0).2.missingPieces = [] ∧
    (nextRequest dmFresh 1 0).2.ongoingPieces.length = 1 ∧
    (nextRequest dmFresh 1 0).2.pendingBlocks = [] := by decide

/-- C9 amended: whenever `next_request` reaches policy step 3 (the peer
is registered, the expired-request scan returns cleanly with nothing, and
no ongoing piece yields a block), then for the first missing piece whose
index is set in the asking peer's bitfield the coordinator removes that
piece from `missing_pieces`, appends it (with its first Missing block
marked Pending) to `ongoing_pieces`, and returns that block — without
appending anything to `pending_blocks`. -/
theorem c9_next_missing_amended (dm : DM) (pid now : Nat) (bf : List Bool)
    (pre post : List Piece) (p : Piece)
    (h1 : lookupPeer dm.peers pid = some bf)
    (h2 : expiredAux bf dm.pendingBlocks = .ok none)
    (h3 : (nextOngoingAux bf now dm.ongoingPieces).1 = none)
    (h4 : dm.missingPieces = pre ++ p :: post)
    (h5 : ∀ q ∈ pre, bitAt bf q.index = false)
    (h6 : bitAt bf p.index = true) :
    nextRequest dm pid now =
      (.ok (pieceNextRequest p).1,
       { dm with missingPieces := pre ++ post,
                 ongoingPieces := dm.ongoingPieces ++ [(pieceNextRequest p).2] }) := by
  have hog := nextOngoingAux_none bf now dm.ongoingPieces h3
  rcases hogr : nextOngoingAux bf now dm.ongoingPieces with ⟨r1, og, pend⟩
  rw [hogr] at h3 hog
  simp at h3 hog
  subst h3
  subst hog
  simp only [nextRequest, h1, h2, hogr, h4, nextMissingAux_skip bf p post h6 pre h5]

/-- Witness for the amended C9, at the fresh one-piece state. -/
theorem c9_next_missing_amended_witness :
    nextRequest dmFresh 1 0 =
      (.ok (pieceNextRequest pieceM0).1,
       { dmFresh with missingPieces := [], ongoingPieces := [(pieceNextRequest pieceM0).2] }) :=
  c9_next_missing_amended dmFresh 1 0 [true] [] [] pieceM0 (by decide) (by decide) (by decide)
    (by decide) (by simp) (by decide)

/-- C10: confirmed. A `next_request` call by a peer id that is not a key
of `peers` returns `None` and leaves the whole coordinator state — in
particular `missing_pieces`, `ongoing_pieces`, `have_pieces` and
`pending_blocks` — unchanged. -/
theorem c10_unknown_peer_returns_none_unchanged (dm : DM) (pid now : Nat)
    (h : lookupPeer dm.peers pid = none) :
    nextRequest dm pid now = (.ok none, dm) := by
  unfold nextRequest
  rw [h]

/-- Witness for C10: peer 5 is not registered in `dmFresh`. -/
theorem c10_unknown_peer_returns_none_unchanged_witness :
    lookupPeer dmFresh.peers 5 = none ∧ nextRequest dmFresh 5 0 = (.ok none, dmFresh) :=
  ⟨by decide, c10_unknown_peer_returns_none_unchanged dmFresh 5 0 (by decide)⟩

end BT
